import Mathlib

/-!
Verification of `scripts/update-funds.py`, a single-pass pipeline that
fetches index-fund metadata, normalizes it, falls back to a curated table,
sorts each market list by fee and writes one JSON document.

Modelling conventions:
* Python floats are idealized as rationals (`ℚ`); `float` formatting with
  `:.2f` / `:.0f` rounds half to even, which `roundHalfEvenAbs` implements
  on the rational value.  Binary-representation artefacts of IEEE floats
  are outside the model.
* Rationals are always built with `mkRat` and compared with the core
  order, keeping every definition kernel-computable.
* Strings are processed on their underlying `List Char`; `Char.toLower`
  matches Python `str.lower` on the ASCII letters that all keyword tests
  in the script use.
* Fallible Python fragments (`int(x)` raising, `float(x)` raising,
  absent dictionary keys) are modelled with explicit `absent`/`invalid`
  constructors or `Option`.
-/

/-- Test for an ASCII decimal digit. -/
def isDigitC (c : Char) : Bool :=
  decide (48 ≤ c.toNat) && decide (c.toNat ≤ 57)

/-- Character for a single decimal digit (argument expected below 10). -/
def digitChar (n : ℕ) : Char :=
  Char.ofNat (48 + n)

/-- Decimal digit characters of `n`, most significant first.  Fuel-based so
that the kernel can evaluate it; `natDigits` supplies sufficient fuel. -/
def natDigitsAux : ℕ → ℕ → List Char
  | 0, _ => []
  | fuel + 1, n =>
    if n < 10 then [digitChar n]
    else natDigitsAux fuel (n / 10) ++ [digitChar (n % 10)]

/-- Decimal digit characters of `n`, most significant first. -/
def natDigits (n : ℕ) : List Char :=
  natDigitsAux (n + 1) n

/-- Two-digit zero-padded rendering of `m` (argument expected below 100). -/
def pad2 (m : ℕ) : List Char :=
  [digitChar (m / 10), digitChar (m % 10)]

/-- Round `|num / den|` to the nearest natural number, ties to even: the
rounding used by Python float formatting, applied to the magnitude. -/
def roundHalfEvenAbs (num : ℤ) (den : ℕ) : ℕ :=
  let n := num.natAbs
  let f := n / den
  let r := n % den
  if 2 * r < den then f
  else if den < 2 * r then f + 1
  else if f % 2 = 0 then f else f + 1

/-- Character data of Python `f"{q:.2f}"` (magnitude rounded to cents,
half to even; a leading minus when `q` is negative). -/
def pyFixed2Data (q : ℚ) : List Char :=
  let cents := roundHalfEvenAbs (q.num * 100) q.den
  let core := natDigits (cents / 100) ++ '.' :: pad2 (cents % 100)
  if q.num < 0 then '-' :: core else core

/-- Risk-rating input of `get_risk_level` (line 111): the Python value may
be `None`, an `int()`-convertible number (the converted integer is carried),
or a value on which `int()` raises. -/
inductive RiskVal where
  | absent
  | invalid
  | num (i : ℤ)
deriving DecidableEq

/-- Return-value input of `format_return` (line 99): `None`, a
`float()`-convertible number, or a value on which `float()` raises. -/
inductive RetVal where
  | absent
  | invalid
  | num (v : ℚ)

/-- Embeds `get_risk_level` (lines 111–124): `None` and conversion failure
give `'Medel'`; otherwise `rating <= 2` gives `'Låg'`, `rating <= 4` gives
`'Medel'`, and anything larger gives `'Hög'`. -/
def get_risk_level : RiskVal → String
  | .absent => "Medel"
  | .invalid => "Medel"
  | .num i => if i ≤ 2 then "Låg" else if i ≤ 4 then "Medel" else "Hög"

/-- Embeds `format_return` (lines 99–108): `None` and conversion failure
give `'N/A'`; otherwise `sign = '+' if val >= 0 else ''` followed by
`f"{val:.0f}%"` (a negative float keeps its minus sign). -/
def format_return : RetVal → String
  | .absent => "N/A"
  | .invalid => "N/A"
  | .num v =>
    let sign := if 0 ≤ v.num then ['+'] else []
    let mag := natDigits (roundHalfEvenAbs v.num v.den)
    String.mk (sign ++ (if v.num < 0 then ['-'] else []) ++ mag ++ ['%'])

/-- Embeds the fee expression of line 72,
`f"{fund.ongoing_charge:.2f}%" if fund.ongoing_charge else 'N/A'`:
the Python condition is falsy exactly when the charge is `None` or zero. -/
def format_fee : Option ℚ → String
  | none => "N/A"
  | some c => if c.num = 0 then "N/A" else String.mk (pyFixed2Data c ++ ['%'])

/-- Checker for the spec pattern fragment `<0 or more digits>%`. -/
def digitsThenPct : List Char → Bool
  | [] => false
  | c :: rest => if c = '%' then rest.isEmpty else isDigitC c && digitsThenPct rest

/-- Checker for the spec pattern fragment `<1 or more digits>%`. -/
def digits1Pct : List Char → Bool
  | [] => false
  | c :: rest => isDigitC c && digitsThenPct rest

/-- Checker for the tail of the spec fee pattern: zero or more further
integer digits, then `.`, exactly two digits, and a final `%`. -/
def dotTwoPct : List Char → Bool
  | [] => false
  | c :: rest =>
    if c = '.' then
      match rest with
      | [d1, d2, p] => decide (p = '%') && isDigitC d1 && isDigitC d2
      | _ => false
    else isDigitC c && dotTwoPct rest

/-- Checker for the spec pattern `<digits>.<2 digits>%` of §8. -/
def matchesFeePattern (s : String) : Bool :=
  match s.data with
  | [] => false
  | c :: rest => isDigitC c && dotTwoPct rest

/-- Checker for the spec return-format contract of §8: an explicit `+`
exactly for non-negative values, a bare `-` exactly for negative values,
then one or more digits and a final `%` (zero decimal places).  A rational
is non-negative precisely when its numerator is. -/
def returnPatternOk (v : ℚ) (s : String) : Bool :=
  match s.data with
  | [] => false
  | c :: rest =>
    if c = '+' then decide (0 ≤ v.num) && digits1Pct rest
    else if c = '-' then decide (v.num < 0) && digits1Pct rest
    else false

/-- Canonical fund record assembled at lines 69–79.  The curated table of
`get_curated_funds` omits the `isin` and `morningstarId` keys, modelled by
`none`; live records always carry them as `some`. -/
structure FundRecord where
  name : String
  index : String
  fee : String
  return1y : String
  return5y : String
  risk : String
  isin : Option String := none
  institutional : Bool
  morningstarId : Option String := none
deriving DecidableEq, Repr

/-- Leading run of ASCII digits of a character list, with the remainder. -/
def takeDigits : List Char → List Char × List Char
  | [] => ([], [])
  | c :: rest =>
    if isDigitC c then
      let p := takeDigits rest
      (c :: p.1, p.2)
    else ([], c :: rest)

/-- Numeric value of a digit-character run. -/
def digitsToNat (cs : List Char) : ℕ :=
  cs.foldl (fun a c => 10 * a + (c.toNat - 48)) 0

/-- Value of Python `float(s)` on the plain decimal forms
`[sign] digits [. digits]` that this pipeline produces (`none` models the
`ValueError` raised on anything else; the exponent and `inf`/`nan` forms
accepted by `float` never occur here). -/
def parseFloatQ (cs : List Char) : Option ℚ :=
  let signed : Bool × List Char :=
    match cs with
    | '-' :: r => (true, r)
    | '+' :: r => (false, r)
    | _ => (false, cs)
  let ip := takeDigits signed.2
  match ip.2 with
  | [] =>
    if ip.1.isEmpty then none
    else some (mkRat (if signed.1 then -(digitsToNat ip.1 : ℤ) else (digitsToNat ip.1 : ℤ)) 1)
  | '.' :: rest2 =>
    let fp := takeDigits rest2
    if fp.2.isEmpty && !(ip.1.isEmpty && fp.1.isEmpty) then
      let m : ℤ := digitsToNat ip.1 * 10 ^ fp.1.length + digitsToNat fp.1
      some (mkRat (if signed.1 then -m else m) (10 ^ fp.1.length))
    else none
  | _ => none

/-- Embeds `.replace('N/A', '999')`: every occurrence of `N/A`, scanned
left to right, becomes `999`. -/
def replaceNA : List Char → List Char
  | 'N' :: '/' :: 'A' :: rest => '9' :: '9' :: '9' :: replaceNA rest
  | c :: rest => c :: replaceNA rest
  | [] => []

/-- Embeds the sort key of lines 452–453,
`float(x['fee'].replace('%', '').replace('N/A', '999'))`: every `%` is
removed (single-character replace), then `N/A` becomes `999`, then the
string is read as a number.  Within the pipeline every fee string is
either `N/A` or a `:.2f` percentage, so the parse never fails; the
`getD` default stands in for the `ValueError` branch `float` would raise
on foreign input. -/
def feeKeyNum (fee : String) : ℚ :=
  let cleaned := replaceNA (fee.data.filter (fun c => c != '%'))
  (parseFloatQ cleaned).getD (mkRat 0 1)

/-- Sort relation of the aggregator: ascending numeric fee key. -/
def feeLE (a b : FundRecord) : Prop :=
  feeKeyNum a.fee ≤ feeKeyNum b.fee

instance : DecidableRel feeLE :=
  fun a b => inferInstanceAs (Decidable (feeKeyNum a.fee ≤ feeKeyNum b.fee))

instance : IsTotal FundRecord feeLE :=
  ⟨fun a b => le_total (feeKeyNum a.fee) (feeKeyNum b.fee)⟩

instance : IsTrans FundRecord feeLE :=
  ⟨fun _ _ _ h h' => le_trans h h'⟩

/-- Embeds `list.sort(key=...)` of lines 452–453.  Python's sort is stable
and ascending in the key; over a total preorder every stable ascending
sort computes the same list, here realized by insertion sort. -/
def sortFunds (l : List FundRecord) : List FundRecord :=
  l.insertionSort feeLE

/-- Bool test for `needle` being a leading segment of `hay`. -/
def beginsWith : List Char → List Char → Bool
  | [], _ => true
  | _ :: _, [] => false
  | a :: as, b :: bs => a == b && beginsWith as bs

/-- Bool test for Python `needle in hay` on strings: `needle` occurs as a
contiguous segment of `hay`. -/
def containsSub (needle : List Char) : List Char → Bool
  | [] => needle.isEmpty
  | c :: rest => beginsWith needle (c :: rest) || containsSub needle rest

/-- Python `s.lower()` restricted to ASCII case mapping, which covers every
keyword comparison the script performs. -/
def lowerData (s : String) : List Char :=
  s.data.map Char.toLower

/-- Embeds the Python string idiom `x or fallback`: `None` and the empty
string are falsy and select the fallback. -/
def pyOrStr (v : Option String) (fallback : String) : String :=
  match v with
  | some s => if s.data.isEmpty then fallback else s
  | none => fallback

/-- Embeds `is_institutional` (lines 127–137): case-insensitive substring
search for any keyword of the fixed list. -/
def is_institutional (name : String) : Bool :=
  let institutional_keywords : List String :=
    ["institutional", "inst", "institution",
     "professional", "wholesale",
     "class i", "class z", "class p",
     "klass i", "klass z",
     "pension", "tjänstepension"]
  let name_lower := lowerData name
  institutional_keywords.any (fun keyword => containsSub keyword.data name_lower)

/-- Raw per-hit data the fetch loop reads from the provider for one search
result (lines 55–78): the search hit's `SecId` and `Name`, and the detail
record's name, benchmark, ongoing charge, trailing returns, risk rating
and ISIN.  Absent values are `none`; `perf1Y`, `perf5Y` and `riskRating`
use the conversion-aware input types. -/
structure RawFund where
  secId : String
  fundName : Option String
  resultName : Option String
  benchmark : Option String
  ongoingCharge : Option ℚ
  perf1Y : RetVal
  perf5Y : RetVal
  riskRating : RiskVal
  isin : Option String

/-- Embeds the per-result body of the fetch loop (lines 57–79): compute the
display name, drop the record unless the lowered name contains `index` or
`passiv`, then assemble the canonical record. -/
def normalizeOne (r : RawFund) : Option FundRecord :=
  let name := pyOrStr r.fundName (pyOrStr r.resultName "Unknown")
  let lower := lowerData name
  if !(containsSub "index".data lower) && !(containsSub "passiv".data lower) then
    none
  else
    some
      { name := name
        index := pyOrStr r.benchmark "N/A"
        fee := format_fee r.ongoingCharge
        return1y := format_return r.perf1Y
        return5y := format_return r.perf5Y
        risk := get_risk_level r.riskRating
        isin := some (pyOrStr r.isin "")
        institutional := is_institutional name
        morningstarId := some r.secId }

/-- Embeds lines 81–83: append the normalized record unless a record with
the identical name is already in the accumulating list. -/
def dedupStep (acc : List FundRecord) (r : RawFund) : List FundRecord :=
  match normalizeOne r with
  | none => acc
  | some fd => if acc.any (fun f => f.name == fd.name) then acc else acc ++ [fd]

/-- The whole normalizer: the fetch loop's accumulating pass over every raw
search result, starting from the empty list. -/
def normalizeAll (raws : List RawFund) : List FundRecord :=
  raws.foldl dedupStep []

/-- Embeds `fetch_morningstar_funds` (lines 25–96).  `MSTARPY_AVAILABLE`
is the import flag of lines 14–18; `provider` abstracts the external
service, giving the flattened stream of raw search results the loop would
visit for a country's search terms.  When the library is missing the
function returns the initial empty `funds` list at line 39 and touches
nothing else. -/
def fetch_morningstar_funds (MSTARPY_AVAILABLE : Bool)
    (provider : String → List RawFund) (country : String) : List FundRecord :=
  if MSTARPY_AVAILABLE then normalizeAll (provider country) else []

/-- Curated `global` table of `get_curated_funds` (lines 172–301), in
source order: eight retail rows, then six institutional rows. -/
def curatedGlobal : List FundRecord :=
  [{ name := "Avanza Global", index := "MSCI World", fee := "0.08%",
     return1y := "+22%", return5y := "+87%", risk := "Medel", institutional := false },
   { name := "Länsförsäkringar Global Index", index := "MSCI World", fee := "0.20%",
     return1y := "+21%", return5y := "+85%", risk := "Medel", institutional := false },
   { name := "Nordea Global Passiv", index := "MSCI World", fee := "0.19%",
     return1y := "+21%", return5y := "+84%", risk := "Medel", institutional := false },
   { name := "Nordnet Indexfond Global", index := "MSCI World ESG", fee := "0.20%",
     return1y := "+20%", return5y := "+82%", risk := "Medel", institutional := false },
   { name := "Swedbank Robur Access Global", index := "MSCI World", fee := "0.20%",
     return1y := "+20%", return5y := "+81%", risk := "Medel", institutional := false },
   { name := "SPP Aktiefond Global", index := "MSCI World", fee := "0.15%",
     return1y := "+21%", return5y := "+83%", risk := "Medel", institutional := false },
   { name := "Handelsbanken Global Index Criteria", index := "MSCI World SRI", fee := "0.20%",
     return1y := "+19%", return5y := "+78%", risk := "Medel", institutional := false },
   { name := "Storebrand Global Indeks", index := "MSCI World", fee := "0.20%",
     return1y := "+21%", return5y := "+84%", risk := "Medel", institutional := false },
   { name := "Blackrock World Index Fund Institutional", index := "MSCI World", fee := "0.05%",
     return1y := "+22%", return5y := "+88%", risk := "Medel", institutional := true },
   { name := "Vanguard Global Stock Index Inst", index := "MSCI World", fee := "0.06%",
     return1y := "+22%", return5y := "+87%", risk := "Medel", institutional := true },
   { name := "State Street World Index Equity Fund P", index := "MSCI World", fee := "0.08%",
     return1y := "+21%", return5y := "+86%", risk := "Medel", institutional := true },
   { name := "Nordea Global Passiv Institutional", index := "MSCI World", fee := "0.10%",
     return1y := "+21%", return5y := "+85%", risk := "Medel", institutional := true },
   { name := "AMF Aktiefond Global", index := "MSCI World", fee := "0.14%",
     return1y := "+21%", return5y := "+84%", risk := "Medel", institutional := true },
   { name := "Alecta Global Aktieindexfond", index := "MSCI World", fee := "0.02%",
     return1y := "+22%", return5y := "+88%", risk := "Medel", institutional := true }]

/-- Curated `sweden` table of `get_curated_funds` (lines 302–431), in
source order: eight retail rows, then six institutional rows. -/
def curatedSweden : List FundRecord :=
  [{ name := "Avanza Zero", index := "OMX30", fee := "0.00%",
     return1y := "+14%", return5y := "+62%", risk := "Hög", institutional := false },
   { name := "Nordnet Indexfond Sverige", index := "Sverige (100+ bolag)", fee := "0.00%",
     return1y := "+12%", return5y := "+51%", risk := "Hög", institutional := false },
   { name := "SEB Sverige Indexnära", index := "SIX Return Index", fee := "0.24%",
     return1y := "+12%", return5y := "+51%", risk := "Hög", institutional := false },
   { name := "Länsförsäkringar Sverige Index", index := "OMXSB", fee := "0.20%",
     return1y := "+11%", return5y := "+50%", risk := "Hög", institutional := false },
   { name := "PLUS Allabolag Sverige Index", index := "Sverige (300 bolag)", fee := "0.30%",
     return1y := "+11%", return5y := "+48%", risk := "Hög", institutional := false },
   { name := "Handelsbanken Sverige Index Criteria", index := "SIX SRI Sweden", fee := "0.20%",
     return1y := "+12%", return5y := "+52%", risk := "Hög", institutional := false },
   { name := "Swedbank Robur Sverigefond", index := "SIX Return Index", fee := "0.20%",
     return1y := "+11%", return5y := "+49%", risk := "Hög", institutional := false },
   { name := "SPP Aktiefond Sverige", index := "SIX Portfolio Return", fee := "0.15%",
     return1y := "+12%", return5y := "+50%", risk := "Hög", institutional := false },
   { name := "AMF Aktiefond Sverige", index := "SIX Return Index", fee := "0.10%",
     return1y := "+13%", return5y := "+54%", risk := "Hög", institutional := true },
   { name := "Alecta Sverige Aktieindexfond", index := "SIX Return Index", fee := "0.02%",
     return1y := "+14%", return5y := "+55%", risk := "Hög", institutional := true },
   { name := "Nordea Sverige Passiv Institutional", index := "OMXSB GI", fee := "0.08%",
     return1y := "+12%", return5y := "+52%", risk := "Hög", institutional := true },
   { name := "SEB Sverige Indexfond Inst", index := "SIX Return Index", fee := "0.10%",
     return1y := "+12%", return5y := "+52%", risk := "Hög", institutional := true },
   { name := "Handelsbanken Sverige Index Inst", index := "SIX SRI Sweden", fee := "0.08%",
     return1y := "+13%", return5y := "+53%", risk := "Hög", institutional := true },
   { name := "Swedbank Robur Sverigefond Inst", index := "SIX Return Index", fee := "0.06%",
     return1y := "+12%", return5y := "+51%", risk := "Hög", institutional := true }]

/-- Embeds `get_curated_funds` (lines 159–432): the two-market curated
dictionary, as the pair (`global`, `sweden`). -/
def get_curated_funds : List FundRecord × List FundRecord :=
  (curatedGlobal, curatedSweden)

/-- Output document assembled at lines 456–467. -/
structure OutputDoc where
  globalList : List FundRecord
  swedenList : List FundRecord
  lastUpdated : String
  sources : List String
  disclaimer : String
deriving DecidableEq

/-- Source attributions of lines 460–465. -/
def sourcesList : List String :=
  ["morningstar.se", "avanza.se", "nordnet.se", "fondmarknaden.se"]

/-- Disclaimer string of line 466. -/
def disclaimerText : String :=
  "Inkluderar fonder för både privatpersoner och institutionella investerare. Historisk avkastning är ingen garanti för framtida resultat."

/-- Embeds lines 444–467 of `main`: starting from the two fetched lists,
switch both markets to the curated tables when either list is empty
(`if not global_funds or not sweden_funds`), sort each list by the fee
key, and assemble the document with the current date. -/
def buildOutput (global_funds sweden_funds : List FundRecord) (today : String) : OutputDoc :=
  let pair :=
    if global_funds.isEmpty || sweden_funds.isEmpty then get_curated_funds
    else (global_funds, sweden_funds)
  { globalList := sortFunds pair.1
    swedenList := sortFunds pair.2
    lastUpdated := today
    sources := sourcesList
    disclaimer := disclaimerText }

/-- File-system state: contents (as the parsed document) per path.  The
script only ever writes one path; modelling the store lets the
no-prior-state claim be stated as non-interference. -/
def FileSystem : Type :=
  String → Option OutputDoc

/-- Destination path of lines 470–471, relative to the repository root. -/
def outputPath : String :=
  "src/data/funds.json"

/-- Embeds `main` (lines 435–478) as a state transformer on the file
store: fetch both markets, build the document, and overwrite the fixed
destination path.  `main` performs no read of the store — the document
depends only on the provider data and the current date — so the prior
store appears solely in the unwritten-paths pass-through. -/
def mainRun (MSTARPY_AVAILABLE : Bool) (provider : String → List RawFund)
    (today : String) (fs : FileSystem) : FileSystem :=
  let global_funds := fetch_morningstar_funds MSTARPY_AVAILABLE provider "global"
  let sweden_funds := fetch_morningstar_funds MSTARPY_AVAILABLE provider "se"
  let output := buildOutput global_funds sweden_funds today
  fun p => if p = outputPath then some output else fs p

/-- A list with positive length is not `isEmpty`, and conversely. -/
theorem listIsEmpty_false_iff {α : Type _} {l : List α} :
    l.isEmpty = false ↔ 0 < l.length := by
  cases l <;> simp

/-- C2: the risk-level mapping is total — every integer rating and the
absent case yield exactly one of the three levels — with boundary
behaviour 2 → Låg (Low), 3 → Medel (Medium), 4 → Medel, 5 → Hög (High)
and absent → Medel. -/
theorem risk_level_total_with_boundaries :
    (∀ r : RiskVal, get_risk_level r = "Låg" ∨ get_risk_level r = "Medel" ∨
      get_risk_level r = "Hög")
    ∧ get_risk_level (RiskVal.num 2) = "Låg"
    ∧ get_risk_level (RiskVal.num 3) = "Medel"
    ∧ get_risk_level (RiskVal.num 4) = "Medel"
    ∧ get_risk_level (RiskVal.num 5) = "Hög"
    ∧ get_risk_level RiskVal.absent = "Medel" := by
  refine ⟨?_, by decide, by decide, by decide, by decide, by decide⟩
  intro r
  cases r with
  | absent => exact Or.inr (Or.inl rfl)
  | invalid => exact Or.inr (Or.inl rfl)
  | num i =>
    simp only [get_risk_level]
    split
    · exact Or.inl rfl
    · split
      · exact Or.inr (Or.inl rfl)
      · exact Or.inr (Or.inr rfl)

/-- C3 counterexample: a rating of 5 maps to `Hög` (High), not to `Medel`
(Medium) as the claim states for ratings at least 5. -/
theorem risk_level_five_not_medium :
    get_risk_level (RiskVal.num 5) = "Hög"
    ∧ decide (get_risk_level (RiskVal.num 5) = "Medel") = false :=
  ⟨by decide, by decide⟩

/-- C3 amended: ratings at least 5 map to Hög (High); ratings at most 2 to
Låg (Low); ratings 3–4 to Medel (Medium); the absent and invalid cases to
Medel. -/
theorem risk_level_piecewise :
    ∀ i : ℤ,
      (5 ≤ i → get_risk_level (RiskVal.num i) = "Hög")
      ∧ (i ≤ 2 → get_risk_level (RiskVal.num i) = "Låg")
      ∧ (3 ≤ i → i ≤ 4 → get_risk_level (RiskVal.num i) = "Medel")
      ∧ get_risk_level RiskVal.absent = "Medel"
      ∧ get_risk_level RiskVal.invalid = "Medel" := by
  intro i
  refine ⟨?_, ?_, ?_, rfl, rfl⟩
  · intro h
    simp only [get_risk_level]
    rw [if_neg (by omega), if_neg (by omega)]
  · intro h
    simp only [get_risk_level]
    rw [if_pos h]
  · intro h3 h4
    simp only [get_risk_level]
    rw [if_neg (by omega), if_pos h4]

/-- C3 amended, instantiated at rating 5. -/
theorem risk_level_piecewise_witness :
    get_risk_level (RiskVal.num 5) = "Hög" :=
  (risk_level_piecewise 5).1 (by decide)

/-- C8: when the provider client library is unavailable at process start,
the fetch returns the empty list for every market key (and, being total,
raises nothing). -/
theorem fetch_unavailable_returns_empty :
    ∀ (provider : String → List RawFund) (country : String),
      fetch_morningstar_funds false provider country = [] := by
  intro provider country
  rfl

/-- C9: a run writes a document that is a function of the provider data
and the current date alone — two runs over any two prior file-system
states write the identical document, so no run reads the previous output
file or any other prior state. -/
theorem pipeline_deterministic_no_prior_state :
    ∀ (avail : Bool) (provider : String → List RawFund) (today : String)
      (fs₁ fs₂ : FileSystem),
      mainRun avail provider today fs₁ outputPath =
        some (buildOutput (fetch_morningstar_funds avail provider "global")
          (fetch_morningstar_funds avail provider "se") today)
      ∧ mainRun avail provider today fs₁ outputPath =
          mainRun avail provider today fs₂ outputPath := by
  intro avail provider today fs₁ fs₂
  constructor <;> simp [mainRun]

/-- C10: the written document's `global` and `sweden` lists are never
empty: an empty fetch on either market switches both lists to the curated
tables, which hold fourteen records each, and a non-empty fetch is kept. -/
theorem output_lists_nonempty :
    ∀ (g s : List FundRecord) (today : String),
      (buildOutput g s today).globalList.isEmpty = false
      ∧ (buildOutput g s today).swedenList.isEmpty = false := by
  intro g s today
  have lenSort : ∀ l : List FundRecord, (sortFunds l).length = l.length :=
    fun l => List.length_insertionSort feeLE l
  by_cases h : (g.isEmpty || s.isEmpty) = true
  · have h1 : (buildOutput g s today).globalList = sortFunds curatedGlobal := by
      simp [buildOutput, h, get_curated_funds]
    have h2 : (buildOutput g s today).swedenList = sortFunds curatedSweden := by
      simp [buildOutput, h, get_curated_funds]
    rw [h1, h2]
    constructor <;> (rw [listIsEmpty_false_iff, lenSort]; decide)
  · rw [Bool.or_eq_true, not_or, Bool.not_eq_true, Bool.not_eq_true] at h
    have h1 : (buildOutput g s today).globalList = sortFunds g := by
      simp [buildOutput, h.1, h.2]
    have h2 : (buildOutput g s today).swedenList = sortFunds s := by
      simp [buildOutput, h.1, h.2]
    rw [h1, h2]
    constructor <;> rw [listIsEmpty_false_iff, lenSort]
    · exact listIsEmpty_false_iff.mp h.1
    · exact listIsEmpty_false_iff.mp h.2

/-- C1 counterexample: with both fetches empty the written `global` list
is the fee-sorted curated list, which differs from the curated table's own
order — the sorted list opens with the cheapest fund (Alecta, 0.02%)
while the curated table opens with Avanza Global (0.08%). -/
theorem fallback_list_ne_curated_order :
    decide ((buildOutput [] [] "2025-01-01").globalList = curatedGlobal) = false
    ∧ ((buildOutput [] [] "2025-01-01").globalList.map FundRecord.name).head? =
        some "Alecta Global Aktieindexfond"
    ∧ (curatedGlobal.map FundRecord.name).head? = some "Avanza Global" :=
  ⟨by decide, by decide, by decide⟩

/-- C1 amended: when either market's fetch is empty, BOTH written lists
are the curated tables sorted ascending by fee — record-for-record the
curated data (a permutation of each curated table), in fee order rather
than in the table's own order. -/
theorem fallback_lists_eq_sorted_curated :
    ∀ (g s : List FundRecord) (today : String), g = [] ∨ s = [] →
      (buildOutput g s today).globalList = sortFunds curatedGlobal
      ∧ (buildOutput g s today).swedenList = sortFunds curatedSweden
      ∧ (buildOutput g s today).globalList.Perm curatedGlobal
      ∧ (buildOutput g s today).swedenList.Perm curatedSweden := by
  intro g s today h
  have hb : (g.isEmpty || s.isEmpty) = true := by
    rcases h with h | h <;> subst h <;> simp
  have h1 : (buildOutput g s today).globalList = sortFunds curatedGlobal := by
    simp [buildOutput, hb, get_curated_funds]
  have h2 : (buildOutput g s today).swedenList = sortFunds curatedSweden := by
    simp [buildOutput, hb, get_curated_funds]
  refine ⟨h1, h2, ?_, ?_⟩
  · rw [h1]; exact List.perm_insertionSort feeLE curatedGlobal
  · rw [h2]; exact List.perm_insertionSort feeLE curatedSweden

/-- C1 amended, instantiated at two empty fetches. -/
theorem fallback_lists_eq_sorted_curated_witness :
    (buildOutput [] [] "2025-01-01").globalList = sortFunds curatedGlobal
    ∧ (buildOutput [] [] "2025-01-01").swedenList = sortFunds curatedSweden
    ∧ (buildOutput [] [] "2025-01-01").globalList.Perm curatedGlobal
    ∧ (buildOutput [] [] "2025-01-01").swedenList.Perm curatedSweden :=
  fallback_lists_eq_sorted_curated [] [] "2025-01-01" (Or.inl rfl)

/-- Digit characters produced by `digitChar` below 10 pass `isDigitC`. -/
theorem digitChar_isDigit {n : ℕ} (h : n < 10) : isDigitC (digitChar n) = true := by
  interval_cases n <;> decide

/-- With sufficient fuel, `natDigitsAux` yields a non-empty all-digit
character list. -/
theorem natDigitsAux_shape :
    ∀ (fuel n : ℕ), n < fuel →
    ∃ d ds, natDigitsAux fuel n = d :: ds ∧ isDigitC d = true ∧ ds.all isDigitC = true := by
  intro fuel
  induction fuel with
  | zero => intro n h; exact absurd h (Nat.not_lt_zero n)
  | succ fuel ih =>
    intro n h
    by_cases h10 : n < 10
    · exact ⟨digitChar n, [], by simp [natDigitsAux, h10], digitChar_isDigit h10, rfl⟩
    · have hdiv : n / 10 < fuel := by
        have : n / 10 < n := Nat.div_lt_self (by omega) (by omega)
        omega
      obtain ⟨d, ds, he, hd, hall⟩ := ih (n / 10) hdiv
      refine ⟨d, ds ++ [digitChar (n % 10)], ?_, hd, ?_⟩
      · simp [natDigitsAux, h10, he]
      · simp [List.all_append, hall, digitChar_isDigit (Nat.mod_lt n (by omega))]

/-- The digit string of any natural number is non-empty and all digits. -/
theorem natDigits_shape (n : ℕ) :
    ∃ d ds, natDigits n = d :: ds ∧ isDigitC d = true ∧ ds.all isDigitC = true :=
  natDigitsAux_shape (n + 1) n (Nat.lt_succ_self n)

/-- A run of digits followed by `%` satisfies `digitsThenPct`. -/
theorem digitsThenPct_append_pct :
    ∀ ds : List Char, ds.all isDigitC = true → digitsThenPct (ds ++ ['%']) = true := by
  intro ds
  induction ds with
  | nil => intro _; rfl
  | cons c t ih =>
    intro h
    simp only [List.all_cons, Bool.and_eq_true] at h
    have hc : c ≠ '%' := fun he => by rw [he] at h; exact absurd h.1 (by decide)
    simp [digitsThenPct, hc, h.1, ih h.2]

/-- A non-empty run of digits followed by `%` satisfies `digits1Pct`. -/
theorem digits1Pct_of_digits {ds : List Char} (hne : ds ≠ [])
    (hall : ds.all isDigitC = true) : digits1Pct (ds ++ ['%']) = true := by
  cases ds with
  | nil => exact absurd rfl hne
  | cons c t =>
    simp only [List.all_cons, Bool.and_eq_true] at hall
    simp [digits1Pct, hall.1, digitsThenPct_append_pct t hall.2]

/-- A run of digits, then `.`, two digits and `%`, satisfies `dotTwoPct`. -/
theorem dotTwoPct_digits :
    ∀ ds : List Char, ds.all isDigitC = true →
    ∀ d1 d2 : Char, isDigitC d1 = true → isDigitC d2 = true →
    dotTwoPct (ds ++ ['.', d1, d2, '%']) = true := by
  intro ds
  induction ds with
  | nil =>
    intro _ d1 d2 h1 h2
    simp [dotTwoPct, h1, h2]
  | cons c t ih =>
    intro h d1 d2 h1 h2
    simp only [List.all_cons, Bool.and_eq_true] at h
    have hc : c ≠ '.' := fun he => by rw [he] at h; exact absurd h.1 (by decide)
    simp [dotTwoPct, hc, h.1, ih h.2 d1 d2 h1 h2]

/-- C5: every numeric return value formats as a zero-decimal percentage
string opening with an explicit `+` exactly when the value is
non-negative and with a bare `-` exactly when it is negative; the absent
and non-numeric cases give the sentinel. -/
theorem return_format_signed_pattern :
    (∀ v : ℚ, returnPatternOk v (format_return (RetVal.num v)) = true)
    ∧ format_return RetVal.absent = "N/A"
    ∧ format_return RetVal.invalid = "N/A" := by
  refine ⟨?_, rfl, rfl⟩
  intro v
  obtain ⟨d, ds, he, hd, hall⟩ := natDigits_shape (roundHalfEvenAbs v.num v.den)
  have hdig : digits1Pct (natDigits (roundHalfEvenAbs v.num v.den) ++ ['%']) = true := by
    rw [he]
    exact digits1Pct_of_digits (by simp) (by simp [hd, hall])
  by_cases hnn : 0 ≤ v.num
  · have hneg : ¬(v.num < 0) := by omega
    simp only [format_return, if_pos hnn, if_neg hneg, List.append_nil, List.nil_append]
    simp [returnPatternOk, hnn, hdig]
  · have hneg : v.num < 0 := by omega
    simp only [format_return, if_neg hnn, if_pos hneg, List.append_nil, List.nil_append]
    simp [returnPatternOk, hneg, hdig]

/-- C4 counterexample: a zero ongoing charge is a numeric value, yet the
truthiness test of line 72 treats it like an absent one, so the fee
formats as the sentinel and not as a two-decimal percentage. -/
theorem fee_format_zero_charge_sentinel :
    format_fee (some (mkRat 0 1)) = "N/A"
    ∧ matchesFeePattern (format_fee (some (mkRat 0 1))) = false :=
  ⟨by decide, by decide⟩

/-- C4 amended: every positive ongoing charge formats as a string matching
`<digits>.<2 digits>%`; an absent or zero ongoing charge gives the
sentinel `N/A`. -/
theorem fee_format_pattern :
    ∀ c : ℚ,
      (0 < c → matchesFeePattern (format_fee (some c)) = true)
      ∧ format_fee none = "N/A"
      ∧ format_fee (some (mkRat 0 1)) = "N/A" := by
  intro c
  refine ⟨?_, rfl, by decide⟩
  intro hpos
  have hnum : 0 < c.num := Rat.num_pos.mpr hpos
  have hne : ¬(c.num = 0) := by omega
  have hneg : ¬(c.num < 0) := by omega
  obtain ⟨d, ds, he, hd, hall⟩ :=
    natDigits_shape (roundHalfEvenAbs (c.num * 100) c.den / 100)
  have hq1 : roundHalfEvenAbs (c.num * 100) c.den % 100 / 10 < 10 := by omega
  have hq2 : roundHalfEvenAbs (c.num * 100) c.den % 100 % 10 < 10 := by omega
  simp only [format_fee, if_neg hne, pyFixed2Data, if_neg hneg, he, pad2]
  simp only [matchesFeePattern, List.cons_append, List.append_assoc, List.nil_append]
  simp [hd, dotTwoPct_digits ds hall _ _ (digitChar_isDigit hq1) (digitChar_isDigit hq2)]

/-- C4 amended, instantiated at the positive ongoing charge 0.12. -/
theorem fee_format_pattern_witness :
    matchesFeePattern (format_fee (some (mkRat 12 100))) = true :=
  (fee_format_pattern (mkRat 12 100)).1 (by decide)

/-- Two sample records sharing the fee value 0.20%, exercising stability. -/
def recEqualFeeA : FundRecord :=
  { name := "Fund A", index := "IX", fee := "0.20%",
    return1y := "+1%", return5y := "+2%", risk := "Medel", institutional := false }

/-- Second sample record with the same fee as `recEqualFeeA`. -/
def recEqualFeeB : FundRecord :=
  { name := "Fund B", index := "IY", fee := "0.20%",
    return1y := "+3%", return5y := "+4%", risk := "Medel", institutional := false }

/-- C6: after the aggregator's sort every adjacent pair is ascending in
the numeric fee key; the sentinel fee `N/A` carries the key 999; and the
sort is stable — two records with equal numeric fee keep their original
relative order. -/
theorem sort_by_fee_sorted_and_stable :
    ∀ l : List FundRecord,
      List.Chain' feeLE (sortFunds l)
      ∧ feeKeyNum "N/A" = mkRat 999 1
      ∧ (∀ a b : FundRecord, feeKeyNum a.fee = feeKeyNum b.fee →
          [a, b].Sublist l → [a, b].Sublist (sortFunds l)) := by
  intro l
  refine ⟨?_, by decide, ?_⟩
  · exact (List.sorted_insertionSort feeLE l).chain'
  · intro a b heq hsub
    exact List.pair_sublist_insertionSort (le_of_eq heq) hsub

/-- C6, stability part instantiated: two records with the identical fee
stay in input order through the sort. -/
theorem sort_by_fee_sorted_and_stable_witness :
    [recEqualFeeA, recEqualFeeB].Sublist (sortFunds [recEqualFeeA, recEqualFeeB]) :=
  (sort_by_fee_sorted_and_stable [recEqualFeeA, recEqualFeeB]).2.2
    recEqualFeeA recEqualFeeB rfl (List.Sublist.refl _)

/-- The dedup step never drops records already accumulated. -/
theorem dedupStep_mem {acc : List FundRecord} {f : FundRecord} {r : RawFund}
    (h : f ∈ acc) : f ∈ dedupStep acc r := by
  cases hnr : normalizeOne r with
  | none => simpa [dedupStep, hnr] using h
  | some fd =>
    simp only [dedupStep, hnr]
    split
    · exact h
    · exact List.mem_append_left _ h

/-- The normalizer pass never drops records already accumulated. -/
theorem foldl_dedup_mem {raws : List RawFund} {acc : List FundRecord} {f : FundRecord}
    (h : f ∈ acc) : f ∈ raws.foldl dedupStep acc := by
  induction raws generalizing acc with
  | nil => exact h
  | cons r t ih => exact ih (dedupStep_mem h)

/-- After a dedup step on a successfully normalized record, some record
with that record's name is in the list. -/
theorem dedupStep_name {acc : List FundRecord} {r : RawFund} {fd : FundRecord}
    (hnr : normalizeOne r = some fd) : ∃ f ∈ dedupStep acc r, f.name = fd.name := by
  simp only [dedupStep, hnr]
  split
  · next hany =>
    obtain ⟨f, hf, hbeq⟩ := List.any_eq_true.mp hany
    exact ⟨f, hf, by simpa using hbeq⟩
  · exact ⟨fd, List.mem_append_right _ (by simp), rfl⟩

/-- If some raw record normalizes to name `n`, the normalizer pass leaves
a record named `n` in the list. -/
theorem foldl_dedup_name {raws : List RawFund} {n : String} :
    ∀ {acc : List FundRecord},
      (∃ r ∈ raws, ∃ fd, normalizeOne r = some fd ∧ fd.name = n) →
      ∃ f ∈ raws.foldl dedupStep acc, f.name = n := by
  induction raws with
  | nil =>
    intro acc h
    obtain ⟨r, hr, _⟩ := h
    exact absurd hr (List.not_mem_nil r)
  | cons r t ih =>
    intro acc h
    rw [List.foldl_cons]
    obtain ⟨r', hr', fd, hnr, hname⟩ := h
    rcases List.mem_cons.mp hr' with he | ht
    · subst he
      obtain ⟨f, hf, hfn⟩ := @dedupStep_name acc r' fd hnr
      exact ⟨f, foldl_dedup_mem hf, by rw [hfn, hname]⟩
    · exact ih ⟨r', ht, fd, hnr, hname⟩

/-- The dedup step preserves uniqueness of names. -/
theorem dedupStep_nodup {acc : List FundRecord} {r : RawFund}
    (h : (acc.map FundRecord.name).Nodup) :
    ((dedupStep acc r).map FundRecord.name).Nodup := by
  cases hnr : normalizeOne r with
  | none => simpa [dedupStep, hnr] using h
  | some fd =>
    simp only [dedupStep, hnr]
    split
    · exact h
    · next hany =>
      rw [List.map_append]
      refine List.Nodup.append h (List.nodup_singleton _) ?_
      intro a ha hb
      obtain ⟨f, hf, hfn⟩ := List.mem_map.mp ha
      have hbn : a = fd.name := by simpa using hb
      rw [List.any_eq_true] at hany
      push_neg at hany
      have := hany f hf
      rw [hfn, hbn] at this
      simp at this

/-- The normalizer pass preserves uniqueness of names. -/
theorem foldl_dedup_nodup {raws : List RawFund} :
    ∀ {acc : List FundRecord}, (acc.map FundRecord.name).Nodup →
      ((raws.foldl dedupStep acc).map FundRecord.name).Nodup := by
  induction raws with
  | nil => intro acc h; exact h
  | cons r t ih =>
    intro acc h
    rw [List.foldl_cons]
    exact ih (dedupStep_nodup h)

/-- In a list with unique names, a name that occurs occurs on exactly one
record. -/
theorem filter_name_length_one {l : List FundRecord} {n : String}
    (hnd : (l.map FundRecord.name).Nodup) (hmem : ∃ f ∈ l, f.name = n) :
    (l.filter (fun f => f.name == n)).length = 1 := by
  obtain ⟨f, hf, hfn⟩ := hmem
  have hmm : n ∈ l.map FundRecord.name := List.mem_map.mpr ⟨f, hf, hfn⟩
  have hle : (l.map FundRecord.name).count n ≤ 1 :=
    List.nodup_iff_count_le_one.mp hnd n
  have hge : 0 < (l.map FundRecord.name).count n := List.count_pos_iff.mpr hmm
  have hcount : (l.map FundRecord.name).count n =
      (l.filter (fun f => f.name == n)).length := by
    rw [List.count, List.countP_map, List.countP_eq_length_filter]
    rfl
  omega

/-- C7: the normalizer output has pairwise-distinct names, and whenever
some raw input normalizes to a given name the output holds exactly one
record with that name — in particular two raw records normalizing to the
identical name yield a single output record. -/
theorem normalizer_dedup_unique_names :
    ∀ (raws : List RawFund) (n : String),
      ((normalizeAll raws).map FundRecord.name).Nodup
      ∧ ((∃ r ∈ raws, ∃ fd, normalizeOne r = some fd ∧ fd.name = n) →
          ((normalizeAll raws).filter (fun f => f.name == n)).length = 1) := by
  intro raws n
  have hnd : ((normalizeAll raws).map FundRecord.name).Nodup :=
    foldl_dedup_nodup (by simp)
  exact ⟨hnd, fun h => filter_name_length_one hnd (foldl_dedup_name h)⟩

/-- Raw provider record of the spec §8 end-to-end example. -/
def rawAcme : RawFund :=
  { secId := "F1", fundName := some "Acme World Index Fund", resultName := none,
    benchmark := some "MSCI World", ongoingCharge := some (mkRat 12 100),
    perf1Y := RetVal.num (mkRat 184 10), perf5Y := RetVal.absent,
    riskRating := RiskVal.num 3, isin := some "SE0000000001" }

/-- A second raw record normalizing to the same name as `rawAcme`. -/
def rawAcme2 : RawFund :=
  { rawAcme with secId := "F2" }

/-- Normalized form of `rawAcme` (the spec §8 example record). -/
def acmeRecord : FundRecord :=
  { name := "Acme World Index Fund", index := "MSCI World", fee := "0.12%",
    return1y := "+18%", return5y := "N/A", risk := "Medel",
    isin := some "SE0000000001", institutional := false,
    morningstarId := some "F1" }

/-- C7 instantiated: two raw records with the identical normalized name
produce exactly one output record with that name. -/
theorem normalizer_dedup_unique_names_witness :
    ((normalizeAll [rawAcme, rawAcme2]).filter
      (fun f => f.name == "Acme World Index Fund")).length = 1 :=
  (normalizer_dedup_unique_names [rawAcme, rawAcme2] "Acme World Index Fund").2
    ⟨rawAcme, by simp, acmeRecord, by decide, rfl⟩

